import Mathlib

/-!
Verification of the obsidian-rumdl plugin and of the linting/auto-fix engine
it calls into.  The plugin source is `src/main.ts`; the engine (`Linter.check`,
`Linter.fix`, `Linter.from_toml`) ships as a WebAssembly build whose
implementation is not part of this repository, only its interface declaration
is, so the engine is modelled from the specification (spec.md sections 3-7)
and the plugin-side functions are translated from `src/main.ts`.
-/

namespace Rumdl

/-- Modelled from the spec: a loosely-typed configuration value as it arrives
from JavaScript or from parsed TOML (spec section 4.3: "input is a
loosely-typed configuration object").  Also used to model the plain
JavaScript objects `createLinter` builds in `src/main.ts`. -/
inductive JVal where
  | str : String → JVal
  | num : Int → JVal
  | bool : Bool → JVal
  | arr : List JVal → JVal
  | table : List (String × JVal) → JVal

/-- Modelled from the spec: a half-open character range `[start, endPos)` into
the original text (spec section 3, "Fix").  The engine's interface exposes it
as `fix.range.start` / `fix.range.end`; `end` is a Lean keyword so the field
is named `endPos`. -/
structure FixRange where
  start : Nat
  endPos : Nat
deriving DecidableEq

/-- Modelled from the spec: a single textual edit, a range into the original
text plus a replacement string (spec section 3, "Fix"). -/
structure Fix where
  range : FixRange
  replacement : String
deriving DecidableEq

/-- Modelled from the spec: a diagnostic with owning rule name, message,
1-indexed line and column, and an optional fix (spec section 3, "Finding");
field names follow the JSON serialization in the interface declaration. -/
structure Finding where
  rule_name : String
  message : String
  line : Nat
  column : Nat
  fix : Option Fix
deriving DecidableEq

/-- Modelled from the spec: a rule has a stable name, a `check` operation and
an optional `fix` operation (spec section 3, "Rule"; section 4.2).  Either
operation may fail internally, which the coordinator contains per rule
(`none` models the contained internal error of sections 4.2 and 4.5). -/
structure Rule where
  name : String
  check : String → Option (List Finding)
  fix : Option (String → Option (List Fix))

/-- Modelled from the spec: the resolved configuration - disabled rule names,
global line-length (0 = unlimited), flavor dialect, and per-rule option
tables kept as raw values (spec section 3, "Configuration"; section 4.3). -/
structure Config where
  disable : List String
  lineLength : Nat
  flavor : String
  ruleOptions : List (String × JVal)

/-- Modelled from the spec: a Linter instance owns a resolved Configuration
and the enabled subset of the rule registry (spec section 3, "Linter
instance"; section 4.3: the resolver's output is "the definitive enabled-rule
set"). -/
structure Linter where
  config : Config
  rules : List Rule

/-! ### The ordering on findings (spec section 4.4: line, column, rule name) -/

/-- Lexicographic Boolean comparison on character lists; the base of the
rule-name ordering used when the coordinator sorts findings. -/
def charListLeb : List Char → List Char → Bool
  | [], _ => true
  | _ :: _, [] => false
  | c :: cs, d :: ds => if c < d then true else if d < c then false else charListLeb cs ds

/-- Lexicographic string comparison used for the "rule name ascending" leg of
the coordinator's ordering contract. -/
def strLeb (a b : String) : Bool :=
  charListLeb a.toList b.toList

/-- Modelled from the spec: the total order "(line ascending, column
ascending, rule name ascending)" of spec section 4.4. -/
def findingLE (a b : Finding) : Bool :=
  if a.line < b.line then true
  else if b.line < a.line then false
  else if a.column < b.column then true
  else if b.column < a.column then false
  else strLeb a.rule_name b.rule_name

theorem charListLeb_total : ∀ as bs : List Char, charListLeb as bs = true ∨ charListLeb bs as = true := by
  intro as
  induction as with
  | nil => intro bs; exact Or.inl rfl
  | cons c cs ih =>
    intro bs
    cases bs with
    | nil => exact Or.inr rfl
    | cons d ds =>
      rcases lt_trichotomy c d with h | h | h
      · left
        simp [charListLeb, h]
      · subst h
        rcases ih ds with h2 | h2
        · left
          simp [charListLeb, lt_irrefl, h2]
        · right
          simp [charListLeb, lt_irrefl, h2]
      · right
        simp [charListLeb, h]

theorem charListLeb_trans : ∀ as bs cs : List Char,
    charListLeb as bs = true → charListLeb bs cs = true → charListLeb as cs = true := by
  intro as
  induction as with
  | nil => intro bs cs _ _; rfl
  | cons a as ih =>
    intro bs cs h1 h2
    cases bs with
    | nil => simp [charListLeb] at h1
    | cons b bs =>
      cases cs with
      | nil => simp [charListLeb] at h2
      | cons c cs =>
        by_cases hab : a < b
        · by_cases hbc : b < c
          · simp [charListLeb, lt_trans hab hbc]
          · by_cases hcb : c < b
            · simp [charListLeb, hbc, hcb] at h2
            · have hbceq : b = c := le_antisymm (not_lt.mp hcb) (not_lt.mp hbc)
              subst hbceq
              simp [charListLeb, hab]
        · by_cases hba : b < a
          · simp [charListLeb, hab, hba] at h1
          · have habeq : a = b := le_antisymm (not_lt.mp hba) (not_lt.mp hab)
            subst habeq
            simp only [charListLeb, lt_self_iff_false, if_false] at h1
            by_cases hac : a < c
            · simp [charListLeb, hac]
            · by_cases hca : c < a
              · simp [charListLeb, hac, hca] at h2
              · have haceq : a = c := le_antisymm (not_lt.mp hca) (not_lt.mp hac)
                subst haceq
                simp only [charListLeb, lt_self_iff_false, if_false] at h2 ⊢
                exact ih bs cs h1 h2

theorem strLeb_total (a b : String) : strLeb a b = true ∨ strLeb b a = true :=
  charListLeb_total a.toList b.toList

theorem strLeb_trans (a b c : String) (h1 : strLeb a b = true) (h2 : strLeb b c = true) :
    strLeb a c = true :=
  charListLeb_trans a.toList b.toList c.toList h1 h2

theorem findingLE_iff (a b : Finding) :
    findingLE a b = true ↔
      (a.line < b.line ∨ (a.line = b.line ∧
        (a.column < b.column ∨ (a.column = b.column ∧ strLeb a.rule_name b.rule_name = true)))) := by
  unfold findingLE
  split_ifs with h1 h2 h3 h4
  · simp only [true_iff]
    exact Or.inl h1
  · simp only [false_iff]
    rintro (hlt | ⟨heq, _⟩) <;> omega
  · simp only [true_iff]
    exact Or.inr ⟨by omega, Or.inl h3⟩
  · simp only [false_iff]
    rintro (hlt | ⟨heq, hc | ⟨hceq, _⟩⟩) <;> omega
  · constructor
    · intro h
      exact Or.inr ⟨by omega, Or.inr ⟨by omega, h⟩⟩
    · rintro (h | ⟨_, h | ⟨_, hs⟩⟩)
      · omega
      · omega
      · exact hs

theorem findingLE_total (a b : Finding) : findingLE a b = true ∨ findingLE b a = true := by
  rw [findingLE_iff, findingLE_iff]
  rcases Nat.lt_trichotomy a.line b.line with h | h | h
  · exact Or.inl (Or.inl h)
  · rcases Nat.lt_trichotomy a.column b.column with hc | hc | hc
    · exact Or.inl (Or.inr ⟨h, Or.inl hc⟩)
    · rcases strLeb_total a.rule_name b.rule_name with hs | hs
      · exact Or.inl (Or.inr ⟨h, Or.inr ⟨hc, hs⟩⟩)
      · exact Or.inr (Or.inr ⟨h.symm, Or.inr ⟨hc.symm, hs⟩⟩)
    · exact Or.inr (Or.inr ⟨h.symm, Or.inl hc⟩)
  · exact Or.inr (Or.inl h)

theorem findingLE_trans (a b c : Finding) (hab : findingLE a b = true)
    (hbc : findingLE b c = true) : findingLE a c = true := by
  rw [findingLE_iff] at hab hbc ⊢
  rcases hab with h1 | ⟨e1, h1⟩
  · rcases hbc with h2 | ⟨e2, _⟩
    · exact Or.inl (by omega)
    · exact Or.inl (by omega)
  · rcases hbc with h2 | ⟨e2, h2⟩
    · exact Or.inl (by omega)
    · refine Or.inr ⟨by omega, ?_⟩
      rcases h1 with c1 | ⟨ec1, s1⟩
      · rcases h2 with c2 | ⟨ec2, _⟩
        · exact Or.inl (by omega)
        · exact Or.inl (by omega)
      · rcases h2 with c2 | ⟨ec2, s2⟩
        · exact Or.inl (by omega)
        · exact Or.inr ⟨by omega, strLeb_trans _ _ _ s1 s2⟩

/-! ### The lint coordinator (spec section 4.4) -/

/-- Modelled from the spec: reject an emitted fix whose range is not
well-formed against the text it was computed from - "ranges must be
well-formed (`start <= end`, both within document bounds) or the fix is
rejected" (spec section 3, "Fix"; section 8, "Range validity"). -/
def validateFix (len : Nat) : Option Fix → Option Fix
  | some fx => if fx.range.start ≤ fx.range.endPos ∧ fx.range.endPos ≤ len then some fx else none
  | none => none

/-- Modelled from the spec: the coordinator tags every finding with the owning
rule's name (spec section 3: a Finding's first attribute is its "owning rule
name") and validates its attached fix range. -/
def validateFinding (len : Nat) (ruleName : String) (f : Finding) : Finding :=
  ⟨ruleName, f.message, f.line, f.column, validateFix len f.fix⟩

/-- Modelled from the spec: run one rule's `check`; an internal rule error
(`none`) is contained and contributes nothing (spec section 4.2). -/
def runRuleCheck (content : String) (r : Rule) : List Finding :=
  ((r.check content).getD []).map (validateFinding content.length r.name)

/-- Modelled from the spec: findings of all enabled rules, collected in
registry order (spec section 4.4). -/
def collectFindings (L : Linter) (content : String) : List Finding :=
  L.rules.flatMap (runRuleCheck content)

/-- Modelled from the spec: "sort the combined sequence by (line ascending,
column ascending, rule name ascending)" (spec section 4.4). -/
def sortFindings (l : List Finding) : List Finding :=
  List.insertionSort (fun a b => findingLE a b = true) l

/-- Modelled from the spec: `check` parses the text, runs every enabled rule
in registry order and returns the findings sorted by (line, column, rule
name) (spec section 4.4). -/
def Linter.check (L : Linter) (content : String) : List Finding :=
  sortFindings (collectFindings L content)

/-- Modelled from the spec: a `check` call on a Linter instance; the instance
(its resolved configuration) is immutable, each invocation allocates fresh
working state (spec sections 3 and 5), so the call returns the findings and
the unchanged instance. -/
def Linter.checkCall (L : Linter) (t : String) : List Finding × Linter :=
  (L.check t, L)

theorem mem_check_iff_mem_collect (L : Linter) (T : String) (f : Finding) :
    f ∈ L.check T ↔ f ∈ collectFindings L T :=
  (List.perm_insertionSort (fun a b => findingLE a b = true) (collectFindings L T)).mem_iff

theorem exists_of_mem_runRuleCheck (T : String) (r : Rule) (f : Finding)
    (h : f ∈ runRuleCheck T r) : ∃ g, f = validateFinding T.length r.name g := by
  unfold runRuleCheck at h
  rcases List.mem_map.mp h with ⟨g, _, hg⟩
  exact ⟨g, hg.symm⟩

/-- C1: for every input text and configuration (any Linter instance, hence
any resolved configuration and enabled rule set), the Finding sequence
returned by `check` is sorted by line ascending, then column ascending, then
rule name ascending (`strLeb` is the lexicographic order on rule names); the
order holds for every element pair of the output sequence. -/
theorem check_output_sorted (L : Linter) (T : String) :
    List.Pairwise
      (fun a b : Finding =>
        a.line < b.line ∨ (a.line = b.line ∧
          (a.column < b.column ∨ (a.column = b.column ∧ strLeb a.rule_name b.rule_name = true))))
      (L.check T) := by
  have hs : List.Sorted (fun a b => findingLE a b = true) (L.check T) := by
    haveI : IsTotal Finding (fun a b => findingLE a b = true) := ⟨findingLE_total⟩
    haveI : IsTrans Finding (fun a b => findingLE a b = true) := ⟨findingLE_trans⟩
    exact List.sorted_insertionSort (fun a b => findingLE a b = true) (collectFindings L T)
  exact hs.imp (fun h => (findingLE_iff _ _).mp h)

/-- C2: two successive `check` calls with the same text on the same Linter
instance return identical Finding sequences, and the instance itself is
unchanged by a call (the model's `check` is a pure function of the resolved
configuration and the text, as the spec's determinism contract demands). -/
theorem check_deterministic (L : Linter) (T : String) :
    (((L.checkCall T).2).checkCall T).1 = (L.checkCall T).1 ∧ (L.checkCall T).2 = L :=
  ⟨rfl, rfl⟩

/-! ### The fix coordinator (spec section 4.5) -/

/-- Modelled from the spec: a fix whose range is well-formed against the
current text, the only kind the coordinator applies (spec section 3, "Fix"). -/
def wellFormedFix (len : Nat) (fx : Fix) : Bool :=
  decide (fx.range.start ≤ fx.range.endPos) && decide (fx.range.endPos ≤ len)

/-- Modelled from the spec: run one rule's `fix` operation; a rule without
fix support contributes nothing, a rule whose `fix` raises an internal error
has its fixes for the pass discarded (spec sections 4.2 and 4.5, step 1 and
the error policy), and ill-formed ranges are rejected rather than applied. -/
def runRuleFix (content : String) (r : Rule) : List Fix :=
  match r.fix with
  | some fixFn => ((fixFn content).getD []).filter (wellFormedFix content.length)
  | none => []

/-- Modelled from the spec: all fixes across rules collected into one
sequence, in registry order (spec section 4.5, step 2). -/
def collectFixes (L : Linter) (content : String) : List Fix :=
  L.rules.flatMap (runRuleFix content)

/-- Modelled from the spec: two fixes overlap when their half-open ranges
intersect (spec section 4.5, step 3). -/
def overlaps (a b : Fix) : Bool :=
  decide (a.range.start < b.range.endPos) && decide (b.range.start < a.range.endPos)

/-- Modelled from the spec: keep the first fix of each conflicting pair, in
registry order, and drop the other from this pass (spec section 4.5, step 3:
"first-registered-rule wins"). -/
def selectNonOverlapping (fixes : List Fix) : List Fix :=
  fixes.foldl (fun kept fx => if kept.any (fun k => overlaps k fx) then kept else kept ++ [fx]) []

/-- Modelled from the spec: the chosen fixes sorted by start offset ascending
before the single rewrite (spec section 4.5, step 4). -/
def sortFixes (l : List Fix) : List Fix :=
  List.insertionSort (fun a b => a.range.start ≤ b.range.start) l

/-- Modelled from the spec: the single rewrite of section 4.5, step 4 -
unmodified prefix, replacement, unmodified text between edits, unmodified
suffix - expressed over the character list of the fixed snapshot. -/
def applyEditsGo (cs : List Char) : Nat → List Fix → List Char
  | pos, [] => cs.drop pos
  | pos, fx :: rest =>
    ((cs.drop pos).take (fx.range.start - pos)) ++ fx.replacement.toList
      ++ applyEditsGo cs fx.range.endPos rest

/-- Modelled from the spec: apply a start-sorted, non-conflicting set of
fixes in one rewrite against the fixed snapshot of the text. -/
def applyEdits (content : String) (fixes : List Fix) : String :=
  String.mk (applyEditsGo content.toList 0 fixes)

/-- Modelled from the spec: one fix pass - collect fixes, drop conflicts,
sort by start and rewrite once (spec section 4.5, steps 1-4). -/
def onePass (L : Linter) (content : String) : String :=
  applyEdits content (sortFixes (selectNonOverlapping (collectFixes L content)))

/-- Modelled from the spec: the bounded iteration of passes - stop on a pass
that produces no change (fixed point) or when the cap is exhausted, whichever
comes first (spec section 4.5, step 5). -/
def fixLoop (L : Linter) : Nat → String → String
  | 0, t => t
  | Nat.succ n, t => if onePass L t = t then t else fixLoop L n (onePass L t)

/-- Modelled from the spec: the configured pass cap, "a small fixed cap"
(spec section 4.5, step 5); the representative value is not load-bearing. -/
def MAX_FIX_PASSES : Nat := 5

/-- Modelled from the spec: the error policy of section 7 - everything
encountered during `fix` is absorbed; on a catastrophic internal error
unrelated to individual rules (the core returning nothing) the original text
is returned unchanged, otherwise the core's fully-formed output is returned. -/
def fixGuard (core : String → Option String) (t : String) : String :=
  match core t with
  | some r => r
  | none => t

/-- Modelled from the spec: the fix coordinator's core, the bounded pass
iteration of section 4.5; in the model it always completes. -/
def Linter.fixCore (L : Linter) (t : String) : Option String :=
  some (fixLoop L MAX_FIX_PASSES t)

/-- Modelled from the spec: `fix(text) -> text` (spec section 6), the guarded
bounded-pass iteration. -/
def Linter.fix (L : Linter) (t : String) : String :=
  fixGuard L.fixCore t

/-- Iterating single passes, used to state convergence. -/
def passIter (L : Linter) : Nat → String → String
  | 0, t => t
  | Nat.succ k, t => passIter L k (onePass L t)

/-- A text on which one more pass produces no change. -/
def IsFixpoint (L : Linter) (t : String) : Prop :=
  onePass L t = t

/-- The rules reach a fixed point within the configured pass cap on this
input - the spec's "rules do not adversarially cycle" hypothesis. -/
def ConvergesWithin (L : Linter) (t : String) : Prop :=
  ∃ k, k ≤ MAX_FIX_PASSES ∧ IsFixpoint L (passIter L k t)

theorem fixLoop_of_fixpoint (L : Linter) (n : Nat) (t : String) (h : IsFixpoint L t) :
    fixLoop L n t = t := by
  cases n with
  | zero => rfl
  | succ n =>
    have h' : onePass L t = t := h
    simp only [fixLoop]
    rw [if_pos h']

theorem isFixpoint_fixLoop (L : Linter) (n : Nat) (t : String)
    (h : ∃ k, k ≤ n ∧ IsFixpoint L (passIter L k t)) : IsFixpoint L (fixLoop L n t) := by
  induction n generalizing t with
  | zero =>
    rcases h with ⟨k, hk, hfix⟩
    have hk0 : k = 0 := Nat.le_zero.mp hk
    subst hk0
    exact hfix
  | succ n ih =>
    by_cases hf : onePass L t = t
    · simp only [fixLoop, if_pos hf]
      exact hf
    · simp only [fixLoop, if_neg hf]
      rcases h with ⟨k, hk, hfix⟩
      cases k with
      | zero => exact absurd hfix hf
      | succ k =>
        exact ih (onePass L t) ⟨k, Nat.le_of_succ_le_succ hk, hfix⟩

theorem fix_eq_fixLoop (L : Linter) (t : String) : L.fix t = fixLoop L MAX_FIX_PASSES t :=
  rfl

/-- C3: when the rules do not adversarially cycle on T - they reach a fixed
point within the configured pass cap - `fix` converges: applying `fix` to its
own output yields no further change, `fix (fix T) = fix T`. -/
theorem fix_idempotent_within_cap (L : Linter) (T : String) (h : ConvergesWithin L T) :
    L.fix (L.fix T) = L.fix T := by
  have hfp : IsFixpoint L (fixLoop L MAX_FIX_PASSES T) := isFixpoint_fixLoop L MAX_FIX_PASSES T h
  rw [fix_eq_fixLoop, fix_eq_fixLoop]
  exact fixLoop_of_fixpoint L MAX_FIX_PASSES (fixLoop L MAX_FIX_PASSES T) hfp

/-- C3 witness: a concrete Linter (empty enabled-rule set) and text on which
the pass iteration is immediately at its fixed point; `fix (fix "x")` equals
`fix "x"`. -/
theorem fix_idempotent_within_cap_witness :
    (Linter.mk (Config.mk [] 0 "obsidian" []) []).fix
        ((Linter.mk (Config.mk [] 0 "obsidian" []) []).fix "x")
      = (Linter.mk (Config.mk [] 0 "obsidian" []) []).fix "x" :=
  fix_idempotent_within_cap (Linter.mk (Config.mk [] 0 "obsidian" []) []) "x"
    ⟨0, by decide, by unfold IsFixpoint passIter; decide⟩

/-- C5: `fix` never partially mutates the input - for every core and text the
guarded fix either returns the core's fully-formed output text or, when the
core signals a catastrophic internal error, the original text unchanged; and
the engine's `fix` is exactly the guarded bounded-pass rewrite, whose passes
each produce a whole new text from the previous snapshot. -/
theorem fix_all_or_nothing (core : String → Option String) (t : String) (L : Linter) :
    ((core t = none ∧ fixGuard core t = t) ∨ (∃ r, core t = some r ∧ fixGuard core t = r))
      ∧ L.fix t = fixLoop L MAX_FIX_PASSES t := by
  constructor
  · cases hc : core t with
    | none => exact Or.inl ⟨rfl, by simp [fixGuard, hc]⟩
    | some r => exact Or.inr ⟨r, rfl, by simp [fixGuard, hc]⟩
  · rfl

/-! ### The configuration resolver and both construction entry points
(spec sections 4.3 and 4.6) -/

/-- Lookup of a key in a JavaScript-object-like association list; the first
binding wins, as property lookup does. -/
def lookupKey (kvs : List (String × JVal)) (k : String) : Option JVal :=
  Option.map Prod.snd (kvs.find? (fun p => p.1 == k))

/-- All-strings view of a configuration array value. -/
def asStrList : List JVal → Option (List String)
  | [] => some []
  | JVal.str s :: rest => (asStrList rest).map (fun l => s :: l)
  | _ => none

/-- Modelled from the spec: resolve the `disable` list - absent means empty,
anything but an array of rule names is a Configuration error reported with
the offending key (spec sections 4.3 and 6). -/
def resolveDisable (kvs : List (String × JVal)) : Except String (List String) :=
  match lookupKey kvs "disable" with
  | none => Except.ok []
  | some (JVal.arr xs) =>
    match asStrList xs with
    | some l => Except.ok l
    | none => Except.error "disable"
  | some _ => Except.error "disable"

/-- Modelled from the spec: resolve `line-length` - absent or 0 means
unlimited, a negative or non-numeric value fails fast at construction time
with the offending key (spec section 4.3). -/
def resolveLineLength (kvs : List (String × JVal)) : Except String Nat :=
  match lookupKey kvs "line-length" with
  | none => Except.ok 0
  | some (JVal.num n) => if n < 0 then Except.error "line-length" else Except.ok n.toNat
  | some _ => Except.error "line-length"

/-- Modelled from the spec: resolve the dialect selector, defaulting to the
standard dialect when absent (spec section 6). -/
def resolveFlavor (kvs : List (String × JVal)) : Except String String :=
  match lookupKey kvs "flavor" with
  | none => Except.ok "standard"
  | some (JVal.str s) => Except.ok s
  | some _ => Except.error "flavor"

/-- Table values of the raw configuration are its per-rule option sections. -/
def isTable : JVal → Bool
  | JVal.table _ => true
  | _ => false

/-- Modelled from the spec: the per-rule option sections, kept keyed by rule
name (spec section 4.3; unknown names are warnings, never errors, so all
sections are kept). -/
def resolveRuleOptions (kvs : List (String × JVal)) : List (String × JVal) :=
  kvs.filter (fun p => isTable p.2)

/-- Modelled from the spec: the Configuration Resolver - a loosely-typed
object becomes a resolved plan, failing fast with the offending key on an
invalid value (spec section 4.3). -/
def resolveConfig (kvs : List (String × JVal)) : Except String Config :=
  match resolveDisable kvs, resolveLineLength kvs, resolveFlavor kvs with
  | Except.ok d, Except.ok n, Except.ok f => Except.ok (Config.mk d n f (resolveRuleOptions kvs))
  | Except.error e, _, _ => Except.error e
  | _, Except.error e, _ => Except.error e
  | _, _, Except.error e => Except.error e

/-- Modelled from the spec: a Linter built from a resolved configuration has
the definitive enabled-rule set, the registry minus the explicitly disabled
names (spec section 4.3). -/
def Linter.ofConfig (registry : List Rule) (cfg : Config) : Linter :=
  Linter.mk cfg (registry.filter (fun r => !(cfg.disable.contains r.name)))

/-- Modelled from the spec: the programmatic constructor `new Linter(options)`
(spec section 6, entry point (a)). -/
def linter_new (registry : List Rule) (raw : List (String × JVal)) : Except String Linter :=
  (resolveConfig raw).map (Linter.ofConfig registry)

/-- Modelled from the spec: flatten a structured configuration-file payload -
the `[global]` section merges with the per-rule sections at top level, the
global section's bindings taking precedence (spec section 4.6). -/
def flattenToml (payload : List (String × JVal)) : List (String × JVal) :=
  match lookupKey payload "global" with
  | some (JVal.table g) => g ++ payload.filter (fun kv => !(kv.1 == "global"))
  | _ => payload

/-- Modelled from the spec: `Linter.from_toml` normalizes the structured
payload into the very representation the Configuration Resolver produces
from the equivalent programmatic object (spec section 4.6: "both entry
points converge on one internal representation"). -/
def from_toml (registry : List Rule) (payload : List (String × JVal)) : Except String Linter :=
  linter_new registry (flattenToml payload)

/-- Modelled from the spec: `get_resolved_config()` exposes the effective
resolved configuration (spec section 6). -/
def get_resolved_config (L : Linter) : Config :=
  L.config

/-- C4: constructing a Linter from a structured TOML payload
(`Linter.from_toml`) and from the equivalent programmatic object (the
flattened payload handed to the programmatic constructor) yields identical
`get_resolved_config` output and identical `check` and `fix` behavior on
every text.  The plugin's `createLinter` (src/main.ts:229-290) relies on
exactly this: it parses and flattens the TOML itself and always calls the
programmatic constructor. -/
theorem from_toml_matches_programmatic (registry : List Rule)
    (payload : List (String × JVal)) (t : String) (L1 L2 : Linter)
    (h1 : from_toml registry payload = Except.ok L1)
    (h2 : linter_new registry (flattenToml payload) = Except.ok L2) :
    get_resolved_config L1 = get_resolved_config L2
      ∧ L1.check t = L2.check t ∧ L1.fix t = L2.fix t := by
  have h12 : Except.ok (ε := String) L1 = Except.ok L2 := h1.symm.trans h2
  have hL : L1 = L2 := by injection h12
  subst hL
  exact ⟨rfl, rfl, rfl⟩

/-- C4 witness: a concrete payload with a `[global]` section; both entry
points produce the same Linter, so resolved config, `check` and `fix` agree
on a concrete text. -/
theorem from_toml_matches_programmatic_witness :
    get_resolved_config (Linter.mk (Config.mk [] 0 "mkdocs" []) [])
        = get_resolved_config (Linter.mk (Config.mk [] 0 "mkdocs" []) [])
      ∧ (Linter.mk (Config.mk [] 0 "mkdocs" []) []).check "x"
          = (Linter.mk (Config.mk [] 0 "mkdocs" []) []).check "x"
      ∧ (Linter.mk (Config.mk [] 0 "mkdocs" []) []).fix "x"
          = (Linter.mk (Config.mk [] 0 "mkdocs" []) []).fix "x" :=
  from_toml_matches_programmatic []
    [("global", JVal.table [("flavor", JVal.str "mkdocs")])] "x"
    (Linter.mk (Config.mk [] 0 "mkdocs" []) [])
    (Linter.mk (Config.mk [] 0 "mkdocs" []) []) rfl rfl

/-- C6: if a rule name R is in the Linter's disabled set, no Finding with
rule name R appears in the output of `check`, for any registry, text and
resolved configuration - the resolver removes disabled rules from the
enabled set and the coordinator tags each finding with the producing rule's
name. -/
theorem disable_honored (registry : List Rule) (cfg : Config) (R T : String)
    (f : Finding) (hR : R ∈ cfg.disable)
    (hf : f ∈ (Linter.ofConfig registry cfg).check T) :
    f.rule_name ≠ R := by
  rcases List.mem_flatMap.mp
      ((mem_check_iff_mem_collect (Linter.ofConfig registry cfg) T f).mp hf) with ⟨r, hr, hfr⟩
  rcases exists_of_mem_runRuleCheck T r f hfr with ⟨g, rfl⟩
  have hrf : r ∈ registry.filter (fun r => !(cfg.disable.contains r.name)) := hr
  have hcond : (!(cfg.disable.contains r.name)) = true := (List.mem_filter.mp hrf).2
  have hnc : cfg.disable.contains r.name = false := by
    cases hc : cfg.disable.contains r.name
    · rfl
    · rw [hc] at hcond
      cases hcond
  intro hEq
  have hname : r.name = R := hEq
  rw [hname] at hnc
  have h3 : List.elem R cfg.disable = true := List.elem_iff.mpr hR
  rw [show cfg.disable.contains R = List.elem R cfg.disable from rfl, h3] at hnc
  cases hnc

/-- C6 witness: rule "B" is disabled and rule "A" enabled; the finding that
`check` emits for rule "A" on text "x" does not carry rule name "B". -/
theorem disable_honored_witness :
    (Finding.mk "A" "m" 1 1 none).rule_name ≠ "B" :=
  disable_honored
    [Rule.mk "A" (fun _ => some [Finding.mk "A" "m" 1 1 none]) none,
     Rule.mk "B" (fun _ => some [Finding.mk "B" "bad" 1 1 none]) none]
    (Config.mk ["B"] 0 "standard" []) "B" "x"
    (Finding.mk "A" "m" 1 1 none) (by decide) (by decide)

/-- C7: every Fix range emitted by `check` against a text T is well-formed
against T: `start <= end <= length T` (with `0 <= start` holding because
offsets are naturals); the coordinator rejects, rather than emits, any fix
whose range fails this bound, so the plugin may apply
`warning.fix.range.start..end` directly to a document built from the same
content. -/
theorem emitted_fix_ranges_valid (L : Linter) (T : String) (f : Finding) (fx : Fix)
    (hf : f ∈ L.check T) (hfx : f.fix = some fx) :
    fx.range.start ≤ fx.range.endPos ∧ fx.range.endPos ≤ T.length := by
  rcases List.mem_flatMap.mp ((mem_check_iff_mem_collect L T f).mp hf) with ⟨r, _, hfr⟩
  rcases exists_of_mem_runRuleCheck T r f hfr with ⟨g, rfl⟩
  have hvf : validateFix T.length g.fix = some fx := hfx
  cases hg : g.fix with
  | none =>
    rw [hg] at hvf
    cases hvf
  | some fy =>
    rw [hg] at hvf
    simp only [validateFix] at hvf
    by_cases hc : fy.range.start ≤ fy.range.endPos ∧ fy.range.endPos ≤ T.length
    · rw [if_pos hc] at hvf
      have : fy = fx := by injection hvf
      subst this
      exact hc
    · rw [if_neg hc] at hvf
      cases hvf

/-- C7 witness: a concrete rule emits a finding with fix range [0, 1) on the
text "ab"; the emitted range satisfies the bound. -/
theorem emitted_fix_ranges_valid_witness :
    (Fix.mk (FixRange.mk 0 1) "# ").range.start ≤ (Fix.mk (FixRange.mk 0 1) "# ").range.endPos
      ∧ (Fix.mk (FixRange.mk 0 1) "# ").range.endPos ≤ ("ab" : String).length :=
  emitted_fix_ranges_valid
    (Linter.mk (Config.mk [] 0 "standard" [])
      [Rule.mk "A"
        (fun _ => some [Finding.mk "A" "m" 1 1 (some (Fix.mk (FixRange.mk 0 1) "# "))])
        none])
    "ab"
    (Finding.mk "A" "m" 1 1 (some (Fix.mk (FixRange.mk 0 1) "# ")))
    (Fix.mk (FixRange.mk 0 1) "# ") (by decide) rfl

/-! ### The plugin's configuration construction, from `createLinter`
(src/main.ts:229-290) -/

/-- JavaScript truthiness for the modelled configuration values: the empty
string, 0 and false are falsy, arrays and objects are truthy. -/
def truthy : JVal → Bool
  | JVal.str s => !(s == "")
  | JVal.num n => !(n == 0)
  | JVal.bool b => b
  | JVal.arr _ => true
  | JVal.table _ => true

/-- Truthiness of a property access: an absent key reads as `undefined`,
which is falsy. -/
def truthyOpt : Option JVal → Bool
  | some v => truthy v
  | none => false

/-- Whether an object has a key. -/
def hasKey (kvs : List (String × JVal)) (k : String) : Bool :=
  kvs.any (fun p => p.1 == k)

/-- Property assignment `config[k] = v`: the old binding is dropped and the
new one added (lookup and key-set semantics of the JavaScript original). -/
def setKey (kvs : List (String × JVal)) (k : String) (v : JVal) : List (String × JVal) :=
  kvs.filter (fun p => !(p.1 == k)) ++ [(k, v)]

/-- `delete config[k]` (src/main.ts:240). -/
def deleteKey (kvs : List (String × JVal)) (k : String) : List (String × JVal) :=
  kvs.filter (fun p => !(p.1 == k))

/-- The object spread `{ ...a, ...b }`: keys of both, with `b`'s bindings
taking precedence (src/main.ts:239). -/
def mergeObjects (a b : List (String × JVal)) : List (String × JVal) :=
  a.filter (fun p => !(hasKey b p.1)) ++ b

/-- `(parsed.global || {})` (src/main.ts:238): the `[global]` table of the
parsed TOML, or empty when absent (a non-table value spreads to nothing
relevant here, as a primitive spread does). -/
def globalSectionOf (parsed : List (String × JVal)) : List (String × JVal) :=
  match lookupKey parsed "global" with
  | some (JVal.table g) => g
  | _ => []

/-- The flattening in `createLinter` before the flavor default
(src/main.ts:237-240): merge the global section over the top level and
delete the `global` key. -/
def flattenedConfig (parsed : List (String × JVal)) : List (String × JVal) :=
  deleteKey (mergeObjects parsed (globalSectionOf parsed)) "global"

/-- The config-file branch of `createLinter` (src/main.ts:236-245): flatten
the parsed TOML, then `if (!config.flavor) config.flavor = 'obsidian'`. -/
def configFromToml (parsed : List (String × JVal)) : List (String × JVal) :=
  if truthyOpt (lookupKey (flattenedConfig parsed) "flavor")
  then flattenedConfig parsed
  else setKey (flattenedConfig parsed) "flavor" (JVal.str "obsidian")

/-- The plugin settings consumed by the settings-fallback branch of
`createLinter` (src/main.ts:31-42; the on/off toggles it does not read are
omitted). -/
structure RumdlPluginSettings where
  disabledRules : List String
  lineLength : Nat
  headingStyle : String
  emphasisStyle : String
  strongStyle : String
  ulStyle : String

/-- The settings-fallback branch of `createLinter` (src/main.ts:260-289):
the config starts as `{ flavor: 'obsidian' }` and conditionally gains
`disable`, `line-length` and the four per-rule style sections. -/
def configFromSettings (s : RumdlPluginSettings) : List (String × JVal) :=
  ("flavor", JVal.str "obsidian")
    :: ((if 0 < s.disabledRules.length
          then [("disable", JVal.arr (s.disabledRules.map JVal.str))] else [])
      ++ (if 0 < s.lineLength then [("line-length", JVal.num (Int.ofNat s.lineLength))] else [])
      ++ (if !(s.headingStyle == "consistent")
          then [("MD003", JVal.table [("style", JVal.str s.headingStyle)])] else [])
      ++ (if !(s.emphasisStyle == "consistent")
          then [("MD049", JVal.table [("style", JVal.str s.emphasisStyle)])] else [])
      ++ (if !(s.strongStyle == "consistent")
          then [("MD050", JVal.table [("style", JVal.str s.strongStyle)])] else [])
      ++ (if !(s.ulStyle == "consistent")
          then [("MD004", JVal.table [("style", JVal.str s.ulStyle)])] else []))

theorem find?_filter_ne (l : List (String × JVal)) (k : String) :
    List.find? (fun p => p.1 == k) (l.filter (fun p => !(p.1 == k))) = none := by
  induction l with
  | nil => rfl
  | cons p l ih =>
    cases hpk : (p.1 == k) with
    | false => simp [List.filter_cons, hpk, List.find?, ih]
    | true => simp [List.filter_cons, hpk, ih]

theorem lookupKey_append (l r : List (String × JVal)) (k : String) :
    lookupKey (l ++ r) k = (lookupKey l k).or (lookupKey r k) := by
  unfold lookupKey
  rw [List.find?_append]
  cases List.find? (fun p => p.1 == k) l <;> simp

theorem lookupKey_setKey (kvs : List (String × JVal)) (k : String) (v : JVal) :
    lookupKey (setKey kvs k v) k = some v := by
  unfold setKey
  rw [lookupKey_append]
  rw [show lookupKey (kvs.filter (fun p => !(p.1 == k))) k
      = Option.map Prod.snd (List.find? (fun p => p.1 == k)
          (kvs.filter (fun p => !(p.1 == k)))) from rfl]
  rw [find?_filter_ne]
  simp [lookupKey, List.find?]

theorem hasKey_eq_isSome (kvs : List (String × JVal)) (k : String) :
    hasKey kvs k = (lookupKey kvs k).isSome := by
  induction kvs with
  | nil => rfl
  | cons p l ih =>
    cases hpk : (p.1 == k) with
    | false =>
      simp [hasKey, lookupKey, List.find?, List.any_cons, hpk] at ih ⊢
      exact ih
    | true => simp [hasKey, lookupKey, List.find?, List.any_cons, hpk]

theorem lookupKey_cons_self (k : String) (v : JVal) (rest : List (String × JVal)) :
    lookupKey ((k, v) :: rest) k = some v := by
  simp [lookupKey, List.find?]

/-- C8 counterexample: the config file `flavor = ""` does specify a flavor
key (and not the value "obsidian"), yet `createLinter` still overwrites it
with "obsidian", because the code tests JavaScript truthiness
(`!config.flavor`), not key presence; so "flavor is set to 'obsidian' if and
only if the file did not specify one" fails in the only-if direction. -/
theorem flavor_overridden_though_specified :
    hasKey [(("flavor" : String), JVal.str "")] "flavor" = true
      ∧ lookupKey [(("flavor" : String), JVal.str "")] "flavor" ≠ some (JVal.str "obsidian")
      ∧ lookupKey (configFromToml [(("flavor" : String), JVal.str "")]) "flavor"
          = some (JVal.str "obsidian") := by
  refine ⟨rfl, ?_, rfl⟩
  intro h
  rw [show lookupKey [(("flavor" : String), JVal.str "")] "flavor" = some (JVal.str "")
      from rfl] at h
  have h2 : (JVal.str "") = JVal.str "obsidian" := by injection h
  have h3 : ("" : String) = "obsidian" := by injection h2
  exact absurd h3 (by decide)

/-- C8 amended: the configuration object `createLinter` passes to the Linter
constructor always has a flavor key; on the config-file path flavor is set to
'obsidian' exactly when the flattened file config's flavor value is absent or
falsy (JavaScript truthiness - so a file-specified falsy flavor such as the
empty string is also overwritten), and is kept as the file's value otherwise;
on the settings fallback path flavor is unconditionally 'obsidian'. -/
theorem flavor_always_present (parsed : List (String × JVal)) (s : RumdlPluginSettings) :
    hasKey (configFromToml parsed) "flavor" = true
      ∧ lookupKey (configFromToml parsed) "flavor"
          = (if truthyOpt (lookupKey (flattenedConfig parsed) "flavor")
             then lookupKey (flattenedConfig parsed) "flavor"
             else some (JVal.str "obsidian"))
      ∧ hasKey (configFromSettings s) "flavor" = true
      ∧ lookupKey (configFromSettings s) "flavor" = some (JVal.str "obsidian") := by
  refine ⟨?_, ?_, ?_, ?_⟩
  · unfold configFromToml
    cases ht : truthyOpt (lookupKey (flattenedConfig parsed) "flavor") with
    | false => simp [ht, hasKey_eq_isSome, lookupKey_setKey]
    | true =>
      rw [if_pos rfl, hasKey_eq_isSome]
      cases hl : lookupKey (flattenedConfig parsed) "flavor" with
      | none => rw [hl] at ht; cases ht
      | some v => rfl
  · unfold configFromToml
    cases ht : truthyOpt (lookupKey (flattenedConfig parsed) "flavor") with
    | false => simp [ht, lookupKey_setKey]
    | true => simp [ht]
  · simp [configFromSettings, hasKey, List.any_cons]
  · exact lookupKey_cons_self "flavor" (JVal.str "obsidian") _

/-! ### The CodeMirror diagnostics conversion, from `createRumdlLinter`
(src/main.ts:79-132) -/

/-- A warning as parsed from the engine's `check` JSON (the `RumdlWarning`
interface of src/main.ts:16-29); `rule_name` and `rule` are optional. -/
structure RumdlWarning where
  line : Nat
  column : Nat
  message : String
  rule_name : Option String
  rule : Option String
  fix : Option Fix
deriving DecidableEq

/-- The CodeMirror document as the conversion reads it: its lines.
`doc.lines` is the line count; `doc.line(n)` yields the from/to offsets of
the 1-indexed n-th line. -/
structure CMDoc where
  docLines : List String
deriving DecidableEq

/-- Offset of the first character of the 1-indexed line n (each earlier line
contributes its length plus a newline). -/
def lineFrom (d : CMDoc) (n : Nat) : Nat :=
  (((d.docLines.take (n - 1)).map (fun s => s.length + 1)).sum)

/-- Offset just past the last character of the 1-indexed line n. -/
def lineTo (d : CMDoc) (n : Nat) : Nat :=
  lineFrom d n + ((d.docLines.getD (n - 1) "").length)

/-- A named code action on a diagnostic; the editor callback it carries is
identified by its name ("Fix" or "Docs"). -/
structure DiagAction where
  name : String
deriving DecidableEq

/-- A CodeMirror diagnostic as built by the conversion (src/main.ts:89-95);
`from` is a Lean keyword so the offset fields are `fromPos`/`toPos`. -/
structure Diagnostic where
  fromPos : Nat
  toPos : Nat
  severity : String
  message : String
  source : String
  actions : List DiagAction
deriving DecidableEq

/-- `a || b` for optional strings under JavaScript truthiness: an absent or
empty value falls through to the alternative. -/
def orFalsy (a : Option String) (b : String) : String :=
  match a with
  | some s => if s == "" then b else s
  | none => b

/-- `warning.rule_name || warning.rule || 'rumdl'` (src/main.ts:88). -/
def warningRuleName (w : RumdlWarning) : String :=
  orFalsy w.rule_name (orFalsy w.rule "rumdl")

/-- The `^MD\d{3}$` case-insensitive test gating the Docs action
(src/main.ts:117). -/
def isMDRuleName (s : String) : Bool :=
  match s.toList with
  | [a, b, c, d, e] =>
    (a == 'M' || a == 'm') && (b == 'D' || b == 'd') && c.isDigit && d.isDigit && e.isDigit
  | _ => false

/-- One warning's diagnostic (src/main.ts:84-128): `from` is the line start
plus `max 0 ((column || 1) - 1)` (truncated subtraction on naturals), `to`
the line end; severity "warning"; source the resolved rule name; a Fix
action when the warning carries a fix and a Docs action when the rule name
matches MD###. -/
def toDiagnostic (d : CMDoc) (w : RumdlWarning) : Diagnostic :=
  Diagnostic.mk
    (lineFrom d w.line + ((if w.column == 0 then 1 else w.column) - 1))
    (lineTo d w.line)
    "warning"
    w.message
    (warningRuleName w)
    ((match w.fix with
      | some _ => [DiagAction.mk "Fix"]
      | none => [])
      ++ (if isMDRuleName (warningRuleName w) then [DiagAction.mk "Docs"] else []))

/-- The conversion's guard `warning.line >= 1 && warning.line <=
view.state.doc.lines` (src/main.ts:83). -/
def inRange (d : CMDoc) (w : RumdlWarning) : Bool :=
  decide (1 ≤ w.line) && decide (w.line ≤ d.docLines.length)

/-- The conversion loop of src/main.ts:81-132: each in-range warning pushes
exactly one diagnostic, every other warning is skipped. -/
def convertWarnings (d : CMDoc) (ws : List RumdlWarning) : List Diagnostic :=
  ws.foldl (fun acc w => if inRange d w then acc ++ [toDiagnostic d w] else acc) []

theorem convertWarnings_go (d : CMDoc) (ws : List RumdlWarning) (acc : List Diagnostic) :
    ws.foldl (fun acc w => if inRange d w then acc ++ [toDiagnostic d w] else acc) acc
      = acc ++ (ws.filter (inRange d)).map (toDiagnostic d) := by
  induction ws generalizing acc with
  | nil => simp
  | cons w ws ih =>
    cases hw : inRange d w with
    | true => simp [List.foldl_cons, List.filter_cons, hw, ih]
    | false => simp [List.foldl_cons, List.filter_cons, hw, ih]

/-- C9: the diagnostics conversion silently drops every warning whose line
number lies outside the inclusive range [1, number of document lines] -
producing neither a diagnostic nor a fix action for it - while each in-range
warning produces exactly one diagnostic, in order: the loop's output is
exactly the in-range warnings mapped to their diagnostics. -/
theorem convert_drops_out_of_range (d : CMDoc) (ws : List RumdlWarning) :
    convertWarnings d ws = (ws.filter (inRange d)).map (toDiagnostic d) := by
  have h := convertWarnings_go d ws []
  simpa [convertWarnings] using h

/-! ### `fixAll`, from src/main.ts:471-499 -/

/-- The Obsidian editor as `fixAll` touches it: its full content and the
cursor.  `setValue` replaces the whole document (which loses the cursor
position, here reset to the origin), `setCursor` restores a saved one. -/
structure EditorState where
  content : String
  cursor : Nat × Nat
deriving DecidableEq

/-- `editor.setValue(t)`: whole-document replacement; the cursor is not
preserved by the replacement itself. -/
def setValue (_e : EditorState) (t : String) : EditorState :=
  EditorState.mk t (0, 0)

/-- `editor.setCursor(c)`. -/
def setCursor (e : EditorState) (c : Nat × Nat) : EditorState :=
  EditorState.mk e.content c

/-- The plugin state `fixAll` can affect: the editor and the status-bar
issue count (`updateStatusBar`'s argument). -/
structure PluginState where
  editor : EditorState
  statusBar : Option Nat
deriving DecidableEq

/-- `fixAll` (src/main.ts:471-499) on the ready path: run `fix` on the
editor content; if the result differs, save the cursor, `setValue` the fixed
text, restore the cursor, re-`check` and show the remaining count in the
status bar; otherwise leave everything unchanged (only a notice is shown). -/
def fixAll (L : Linter) (st : PluginState) : PluginState :=
  if L.fix st.editor.content ≠ st.editor.content then
    PluginState.mk
      (setCursor (setValue st.editor (L.fix st.editor.content)) st.editor.cursor)
      (some (List.length (L.check (L.fix st.editor.content))))
  else st

/-- C10: `fixAll` mutates the editor if and only if `fix` on the current
content differs from it; the content always ends up equal to the `fix`
output (unchanged when they coincide), the cursor read before the change is
restored after `setValue` (so it is always the original cursor), and the
status bar is updated to the remaining-issue count exactly in the mutating
case, staying untouched otherwise. -/
theorem fixAll_frame (L : Linter) (st : PluginState) :
    ((fixAll L st = st) ↔ L.fix st.editor.content = st.editor.content)
      ∧ (fixAll L st).editor.content = L.fix st.editor.content
      ∧ (fixAll L st).editor.cursor = st.editor.cursor
      ∧ (fixAll L st).statusBar
          = (if L.fix st.editor.content = st.editor.content then st.statusBar
             else some (List.length (L.check (L.fix st.editor.content)))) := by
  by_cases h : L.fix st.editor.content = st.editor.content
  · have he : fixAll L st = st := by
      unfold fixAll
      rw [if_neg (by simp [h])]
    refine ⟨⟨fun _ => h, fun _ => he⟩, ?_, ?_, ?_⟩
    · rw [he, h]
    · rw [he]
    · rw [he, if_pos h]
  · have he : fixAll L st
        = PluginState.mk
            (setCursor (setValue st.editor (L.fix st.editor.content)) st.editor.cursor)
            (some (List.length (L.check (L.fix st.editor.content)))) := by
      unfold fixAll
      rw [if_pos h]
    refine ⟨⟨?_, fun hc => absurd hc h⟩, ?_, ?_, ?_⟩
    · intro hEq
      rw [he] at hEq
      have hcont := congrArg (fun s : PluginState => s.editor.content) hEq
      exact absurd hcont h
    · rw [he]
      rfl
    · rw [he]
      rfl
    · rw [he, if_neg h]

end Rumdl
